import Mathlib

/-!
# Verification of the traceroute provider (Electron main process)

Shallow embedding of the traceroute subsystem of this repository:
the per-line parser `parseTracerouteLine`, the batch parser
`parseTracerouteOutput`, and the streaming orchestration of
`runTracerouteStreaming` (stdout/stderr data handlers, the close handler,
and the module-level active-process handle manipulated by
`stopActiveTraceroute`).

Strings are modelled as `List Char` (the lines are ASCII tool output);
JavaScript regular-expression matching is translated into explicit
leftmost-match scanners, one per regex literal of the source file.
`parseFloat` on the captured latency text (which always has the shape
`\d+\.?\d*`) is modelled exactly as a rational number.
-/

namespace Oli

/-- JS whitespace (`\s` / `String.prototype.trim`) restricted to the ASCII
range, which covers all characters the modelled tool output can contain. -/
def isJsWS (c : Char) : Bool :=
  c = ' ' || c = '\t' || c = '\n' || c = '\r' || c = '\x0b' || c = '\x0c'

/-- ASCII decimal digit, the JS regex class `\d`. -/
def isDig (c : Char) : Bool :=
  '0' ≤ c && c ≤ '9'

/-- The JS regex class `[0-9a-fA-F]`. -/
def isHexDig (c : Char) : Bool :=
  isDig c || ('a' ≤ c && c ≤ 'f') || ('A' ≤ c && c ≤ 'F')

/-- The JS regex class `[0-9a-fA-F-]`. -/
def isHexDash (c : Char) : Bool :=
  isHexDig c || c = '-'

/-- `parseInt(digits, 10)` on a non-empty run of decimal digits. -/
def natOfDigits (ds : List Char) : Nat :=
  ds.foldl (fun n c => 10 * n + (c.toNat - 48)) 0

/-- A string is blank iff `s.trim()` is falsy in JS. -/
def isBlank (l : List Char) : Bool :=
  l.all isJsWS

/-- JS `String.prototype.split(sep)`: every segment, including the final
(possibly empty) one.  The result is always non-empty. -/
def splitAll (sep : Char) : List Char → List (List Char)
  | [] => [[]]
  | c :: rest =>
    if c = sep then [] :: splitAll sep rest
    else
      match splitAll sep rest with
      | [] => [[c]]
      | l :: ls => (c :: l) :: ls

/-- JS `s.trim().split(/\s+/)` viewed as the list of maximal non-whitespace
tokens of `s`.  (For a blank `s`, JS returns `[""]` and this returns `[]`;
the two are interchangeable for the source's only use, the
`parts.length < 2` test together with a read of `parts[0]` on the
non-blank side.) -/
def wordsOf (l : List Char) : List (List Char) :=
  (l.foldr
    (fun c acc =>
      if isJsWS c then [] :: acc
      else
        match acc with
        | [] => [[c]]
        | w :: ws => (c :: w) :: ws)
    []).filter (fun w => !w.isEmpty)

/-- The leading match of `/^\s*(\d+)\s+/`: on success returns the parsed
hop number and the rest of the line after the whole match (the source's
`line.substring(hopMatch[0].length)`). -/
def hopMatch (l : List Char) : Option (Nat × List Char) :=
  let rest1 := l.dropWhile isJsWS
  let ds := rest1.takeWhile isDig
  let rest2 := rest1.dropWhile isDig
  let ws2 := rest2.takeWhile isJsWS
  if ds.isEmpty || ws2.isEmpty then none
  else some (natOfDigits ds, rest2.dropWhile isJsWS)

/-- Attempt of `/(\S+)\s+\((\d+\.\d+\.\d+\.\d+)\)/` anchored at the start of
`l`; greediness of `\S+`, `\s+` and each `\d+` is forced by the following
literal, so the match is the deterministic run-based one. -/
def parenMatchAt (l : List Char) : Option (List Char × List Char) :=
  let t := l.takeWhile (fun c => !isJsWS c)
  if t.isEmpty then none
  else
    let r1 := l.dropWhile (fun c => !isJsWS c)
    let w := r1.takeWhile isJsWS
    if w.isEmpty then none
    else
      match r1.dropWhile isJsWS with
      | '(' :: r2 =>
        let d1 := r2.takeWhile isDig
        if d1.isEmpty then none
        else
          match r2.dropWhile isDig with
          | '.' :: r3 =>
            let d2 := r3.takeWhile isDig
            if d2.isEmpty then none
            else
              match r3.dropWhile isDig with
              | '.' :: r4 =>
                let d3 := r4.takeWhile isDig
                if d3.isEmpty then none
                else
                  match r4.dropWhile isDig with
                  | '.' :: r5 =>
                    let d4 := r5.takeWhile isDig
                    if d4.isEmpty then none
                    else
                      match r5.dropWhile isDig with
                      | ')' :: _ =>
                        some (t, d1 ++ '.' :: d2 ++ '.' :: d3 ++ '.' :: d4)
                      | _ => none
                  | _ => none
              | _ => none
          | _ => none
      | _ => none

/-- Leftmost match of `/(\S+)\s+\((\d+\.\d+\.\d+\.\d+)\)/` over `l`
(the JS engine tries every start position from the left). -/
def parenScan : List Char → Option (List Char × List Char)
  | [] => none
  | c :: rest =>
    match parenMatchAt (c :: rest) with
    | some r => some r
    | none => parenScan rest

/-- Attempt of `/(\d+\.?\d*)\s*ms/` anchored at the start of `l`; returns
the integer and fractional digit runs of the captured number. -/
def rttMatchAt (l : List Char) : Option (List Char × List Char) :=
  let d1 := l.takeWhile isDig
  if d1.isEmpty then none
  else
    match l.dropWhile isDig with
    | '.' :: r2 =>
      let d2 := r2.takeWhile isDig
      let r3 := (r2.dropWhile isDig).dropWhile isJsWS
      if r3.take 2 = ['m', 's'] then some (d1, d2) else none
    | r1 =>
      if (r1.dropWhile isJsWS).take 2 = ['m', 's'] then some (d1, []) else none

/-- Leftmost match of `/(\d+\.?\d*)\s*ms/` over `l`. -/
def rttScan : List Char → Option (List Char × List Char)
  | [] => none
  | c :: rest =>
    match rttMatchAt (c :: rest) with
    | some r => some r
    | none => rttScan rest

/-- `parseFloat` on a captured `\d+\.?\d*` latency: the exact rational
value `int.frac`, written `(int * 10^k + frac) / 10^k` with `k` the number
of fractional digits. -/
def ratOfRtt (d1 d2 : List Char) : ℚ :=
  mkRat (natOfDigits d1 * 10 ^ d2.length + natOfDigits d2) (10 ^ d2.length)

/-- The latency extracted from the rest of a hop line (`null` if the rtt
regex does not match). -/
def rttOf (l : List Char) : Option ℚ :=
  (rttScan l).map (fun p => ratOfRtt p.1 p.2)

/-- `/^\d+\.\d+\.\d+\.\d+$/.test s` — bare dotted-decimal IPv4. -/
def ipv4Test (l : List Char) : Bool :=
  let d1 := l.takeWhile isDig
  !d1.isEmpty &&
    match l.dropWhile isDig with
    | '.' :: r2 =>
      let d2 := r2.takeWhile isDig
      !d2.isEmpty &&
        match r2.dropWhile isDig with
        | '.' :: r3 =>
          let d3 := r3.takeWhile isDig
          !d3.isEmpty &&
            match r3.dropWhile isDig with
            | '.' :: r4 =>
              let d4 := r4.takeWhile isDig
              !d4.isEmpty && (r4.dropWhile isDig).isEmpty
            | _ => false
        | _ => false
    | _ => false

/-- `/^[0-9a-fA-F:]+:[0-9a-fA-F:]+$/.test s` — the string is wholly made of
hex digits and colons with a colon that is neither its first nor its last
character. -/
def ipv6Test (l : List Char) : Bool :=
  l.all (fun c => isHexDig c || c = ':') && ((l.drop 1).dropLast.contains ':')

/-- Capture of `/^([0-9a-fA-F]+-[0-9a-fA-F-]+)/`: a leading maximal hex run,
a hyphen, and a maximal non-empty run of hex-or-hyphen characters. -/
def dashedCapture (l : List Char) : Option (List Char) :=
  let h1 := l.takeWhile isHexDig
  if h1.isEmpty then none
  else
    match l.dropWhile isHexDig with
    | c :: r2 =>
      if c = '-' then
        let run := r2.takeWhile isHexDash
        if run.isEmpty then none else some (h1 ++ '-' :: run)
      else none
    | [] => none

/-- One hyphen-separated group of one to four hex digits
(`/^[0-9a-fA-F]{1,4}$/.test s`). -/
def hexGroup14 (s : List Char) : Bool :=
  decide (1 ≤ s.length) && decide (s.length ≤ 4) && s.all isHexDig

/-- JS `Array.prototype.flatten(sep)` on a list of strings. -/
def joinSep (sep : Char) : List (List Char) → List Char
  | [] => []
  | [x] => x
  | x :: y :: zs => x ++ sep :: joinSep sep (y :: zs)

/-- The dashed-IPv6 recovery applied to a hostname token: if the token has a
leading dashed segment that splits into at least four one-to-four-hex-digit
groups, those groups joined with colons; otherwise no address. -/
def dashedDecode (t : List Char) : Option (List Char) :=
  match dashedCapture t with
  | none => none
  | some cap =>
    let segs := splitAll '-' cap
    if decide (4 ≤ segs.length) && segs.all hexGroup14 then
      some (joinSep ':' segs)
    else none

/-- JS `String.prototype.includes(pat)`: `pat` occurs contiguously in the
string. -/
def hasSub (pat : List Char) : List Char → Bool
  | [] => pat.isEmpty
  | c :: rest => pat.isPrefixOf (c :: rest) || hasSub pat rest

/-- The header markers skipped by both parsers. -/
def hdrV4 : List Char := "traceroute to".toList

/-- The IPv6 header marker. -/
def hdrV6 : List Char := "traceroute6 to".toList

/-- The unresolved-hop marker `'* * *'`. -/
def starMarker : List Char := "* * *".toList

/-- One parsed hop (`TracerouteHop` of the source; `ip` is the spec's
`address`, `rtt` the spec's `roundTripMs`). -/
structure TracerouteHop where
  hop : Nat
  ip : Option (List Char)
  hostname : Option (List Char)
  rtt : Option ℚ
deriving DecidableEq, Repr

/-- The hop record the source pushes: the `hostname` field is
`hostname !== ip ? hostname : null`. -/
def mkHop (n : Nat) (ip hostname : Option (List Char)) (rtt : Option ℚ) :
    TracerouteHop :=
  ⟨n, ip, if hostname = ip then none else hostname, rtt⟩

/-- `parseTracerouteLine` — parse a single line of traceroute output into a
hop, or `none` when the line carries no hop data.  Direct translation of
the source function (blank/header skip, hop-number prefix, `'* * *'`
timeout short-circuit, the two-token minimum, `hostname (ipv4)` /
bare-IPv4 / bare-IPv6 / hostname-with-dashed-IPv6 classification, first
`ms` latency). -/
def parseTracerouteLine (line : List Char) : Option TracerouteHop :=
  if isBlank line || hasSub hdrV4 line || hasSub hdrV6 line then none
  else
    match hopMatch line with
    | none => none
    | some (hopNum, restOfLine) =>
      if hasSub starMarker line then some ⟨hopNum, none, none, none⟩
      else
        match wordsOf restOfLine with
        | firstPart :: _ :: _ =>
          (match parenScan restOfLine with
           | some (hn, ip4) =>
             some (mkHop hopNum (some ip4) (some hn) (rttOf restOfLine))
           | none =>
             if ipv4Test firstPart then
               some (mkHop hopNum (some firstPart) none (rttOf restOfLine))
             else if ipv6Test firstPart then
               some (mkHop hopNum (some firstPart) none (rttOf restOfLine))
             else
               some (mkHop hopNum (dashedDecode firstPart) (some firstPart)
                 (rttOf restOfLine)))
        | _ => none

/-- The body of the `for (const line of lines)` loop of the batch parser
`parseTracerouteOutput`, as the hop (if any) the iteration pushes.  The
batch loop carries the same tests and branches as `parseTracerouteLine`;
it is kept as its own definition so that the two translations can be
compared. -/
def parseOutputLoopBody (line : List Char) : Option TracerouteHop :=
  if isBlank line || hasSub hdrV4 line || hasSub hdrV6 line then none
  else
    match hopMatch line with
    | none => none
    | some (hopNum, restOfLine) =>
      if hasSub starMarker line then some ⟨hopNum, none, none, none⟩
      else
        match wordsOf restOfLine with
        | firstPart :: _ :: _ =>
          (match parenScan restOfLine with
           | some (hn, ip4) =>
             some (mkHop hopNum (some ip4) (some hn) (rttOf restOfLine))
           | none =>
             if ipv4Test firstPart then
               some (mkHop hopNum (some firstPart) none (rttOf restOfLine))
             else if ipv6Test firstPart then
               some (mkHop hopNum (some firstPart) none (rttOf restOfLine))
             else
               some (mkHop hopNum (dashedDecode firstPart) (some firstPart)
                 (rttOf restOfLine)))
        | _ => none

/-- The `hops.push(...)` effect of one batch-loop iteration: append the
iteration's hop, if it produced one. -/
def pushHop (hops : List TracerouteHop) (h : Option TracerouteHop) :
    List TracerouteHop :=
  match h with
  | some h => hops ++ [h]
  | none => hops

/-- `parseTracerouteOutput` — the batch parser: split the whole output on
newlines and run the hop-accumulating loop. -/
def parseTracerouteOutput (output : List Char) : List TracerouteHop :=
  (splitAll '\n' output).foldl
    (fun hops line => pushHop hops (parseOutputLoopBody line)) []

/-- `TracerouteResult` of the source: the aggregate handed to
`onComplete`. -/
structure TraceResult where
  target : List Char
  hops : List TracerouteHop
  timestamp : Nat
  complete : Bool
  error : Option (List Char)
deriving DecidableEq, Repr

/-- An event observed by the caller of `runTracerouteStreaming`:
an `onHop` delivery or an `onComplete` delivery. -/
inductive REvent where
  | hopEv (h : TracerouteHop)
  | completeEv (r : TraceResult)
deriving DecidableEq, Repr

/-- The closure state of one `runTracerouteStreaming` call: the partial-line
`buffer`, the accumulated `hops` array, and the trace of callbacks fired so
far. -/
structure RunState where
  buffer : List Char
  hops : List TracerouteHop
  events : List REvent
deriving DecidableEq, Repr

/-- The state of a `runTracerouteStreaming` closure right after `spawn`. -/
def initRun : RunState :=
  ⟨[], [], []⟩

/-- Processing of one complete line inside a data handler: on a successful
parse the hop is pushed and `onHop` fires; otherwise nothing happens. -/
def stepLine (st : RunState) (line : List Char) : RunState :=
  match parseTracerouteLine line with
  | some h => { st with hops := st.hops ++ [h], events := st.events ++ [.hopEv h] }
  | none => st

/-- The `child.stdout.on('data', ...)` handler: append the chunk to the
buffer, split on newlines, keep the incomplete last segment
(`buffer = lines.pop() || ''`) as the new buffer, and feed every complete
line through `stepLine`. -/
def onStdoutData (st : RunState) (chunk : List Char) : RunState :=
  let lines := splitAll '\n' (st.buffer ++ chunk)
  lines.dropLast.foldl stepLine { st with buffer := lines.getLastD [] }

/-- The `child.stderr.on('data', ...)` handler: split the chunk on newlines
and feed every segment — including the trailing fragment — through
`stepLine`.  It does not touch `buffer`. -/
def onStderrData (st : RunState) (chunk : List Char) : RunState :=
  (splitAll '\n' chunk).foldl stepLine st

/-- The flush at the head of the `close` handler: if the remaining buffer is
not blank it is parsed as a final line. -/
def flushBuffer (st : RunState) : RunState :=
  if !isBlank st.buffer then stepLine st st.buffer else st

/-- The `TraceResult` the `close` handler passes to `onComplete`:
`complete` is `code === 0 || hops.length > 0` over the flushed hops.
`code` is the subprocess exit code (`none` models a `null` code, i.e.
termination by signal). -/
def closeResult (target : List Char) (ts : Nat) (st : RunState)
    (code : Option Int) : TraceResult :=
  let st' := flushBuffer st
  ⟨target, st'.hops, ts, code == some 0 || !st'.hops.isEmpty, none⟩

/-- The `child.on('close', ...)` handler: flush the buffer, then fire
`onComplete` with the final result. -/
def onClose (target : List Char) (ts : Nat) (st : RunState)
    (code : Option Int) : RunState :=
  let st' := flushBuffer st
  { st' with events := st'.events ++ [.completeEv (closeResult target ts st code)] }

/-- One stream event of a run: a chunk on stdout or a chunk on stderr. -/
inductive StreamEv where
  | out (chunk : List Char)
  | err (chunk : List Char)
deriving DecidableEq, Repr

/-- Deliver a stream event to the matching data handler. -/
def stepStream (st : RunState) : StreamEv → RunState
  | .out c => onStdoutData st c
  | .err c => onStderrData st c

/-- The closure state after an arbitrary interleaved sequence of
stdout/stderr chunks. -/
def runEvs (evs : List StreamEv) : RunState :=
  evs.foldl stepStream initRun

/-- The closure state of one full run: stream events followed by the
`close` event. -/
def runClose (target : List Char) (ts : Nat) (evs : List StreamEv)
    (code : Option Int) : RunState :=
  onClose target ts (runEvs evs) code

/-- The newline-split of a whole output text, as the streaming code sees it:
every complete line plus the final (possibly empty) fragment. -/
def linesOf (s : List Char) : List (List Char) :=
  splitAll '\n' s

/-! ## Two overlapping calls

To settle the supersession claims, the module-level
`activeTracerouteProcess` handle and two successive
`runTracerouteStreaming` calls are modelled together.  Each call owns an
independent closure (`RunState`); the handlers registered on a child
process stay attached after `stopActiveTraceroute` kills it, and the
delivery of that child's remaining output / `close` notifications runs the
same handler code — none of the handlers reads the module-level handle. -/

/-- Module-level plus per-call state for two overlapping
`runTracerouteStreaming` invocations: run 1 has process id `1`, run 2 has
process id `2`. -/
structure SysState where
  active : Option Nat
  kills : List Nat
  started1 : Bool
  run1 : RunState
  started2 : Bool
  run2 : RunState
deriving DecidableEq, Repr

/-- Initial module state: no active process, nothing started. -/
def initSys : SysState :=
  ⟨none, [], false, initRun, false, initRun⟩

/-- `stopActiveTraceroute()`: if a process handle is owned, kill it and
clear the handle. -/
def stopActive (s : SysState) : SysState :=
  match s.active with
  | some p => { s with kills := s.kills ++ [p], active := none }
  | none => s

/-- An event of the two-call scenario: the two `runTracerouteStreaming`
invocations, and the OS-scheduled deliveries of each child's stdout chunks
and `close` notification. -/
inductive SysEv where
  | call1
  | call2
  | out1 (chunk : List Char)
  | err1 (chunk : List Char)
  | close1 (code : Option Int)
  | out2 (chunk : List Char)
  | close2 (code : Option Int)
deriving DecidableEq, Repr

/-- One step of the two-call scenario.  A `runTracerouteStreaming` call
first runs `stopActiveTraceroute`, then spawns its child and installs it as
the active handle.  Output and close deliveries for child `i` run that
call's closure handlers; nothing in them consults `active`. -/
def stepSys (target : List Char) (ts : Nat) (s : SysState) : SysEv → SysState
  | .call1 =>
    let s' := stopActive s
    { s' with started1 := true, run1 := initRun, active := some 1 }
  | .call2 =>
    let s' := stopActive s
    { s' with started2 := true, run2 := initRun, active := some 2 }
  | .out1 c => if s.started1 then { s with run1 := onStdoutData s.run1 c } else s
  | .err1 c => if s.started1 then { s with run1 := onStderrData s.run1 c } else s
  | .close1 code =>
    if s.started1 then { s with run1 := onClose target ts s.run1 code } else s
  | .out2 c => if s.started2 then { s with run2 := onStdoutData s.run2 c } else s
  | .close2 code =>
    if s.started2 then { s with run2 := onClose target ts s.run2 code } else s

/-- Execute a two-call scenario from the initial module state. -/
def execSys (target : List Char) (ts : Nat) (evs : List SysEv) : SysState :=
  evs.foldl (stepSys target ts) initSys

/-- Whether a callback trace contains an `onComplete` delivery. -/
def hasCompleteEv : List REvent → Bool
  | [] => false
  | .completeEv _ :: _ => true
  | .hopEv _ :: rest => hasCompleteEv rest

/-! ## The synchronous prefix of `runTracerouteStreaming`

The observable effects of the synchronous body of
`runTracerouteStreaming`, in source order, as a function of
`process.platform`: detect the address family (`target.includes(':')`),
then branch on the platform — on `darwin`/`linux`/`win32` select the
command and argument list, call `stopActiveTraceroute()` and spawn; on any
other platform deliver an error completion and return without touching the
active handle. -/

/-- One observable effect of the synchronous body of
`runTracerouteStreaming`. -/
inductive CallAct where
  | detectFamily
  | selectCommand
  | completeError
  | cancelActive
  | spawnProc
deriving DecidableEq, Repr

/-- The effect trace of one `runTracerouteStreaming` call on a given
`process.platform` value. -/
def callActions (platform : List Char) : List CallAct :=
  [CallAct.detectFamily] ++
    (if platform = "darwin".toList || platform = "linux".toList then
      [CallAct.selectCommand, CallAct.cancelActive, CallAct.spawnProc]
    else if platform = "win32".toList then
      [CallAct.selectCommand, CallAct.cancelActive, CallAct.spawnProc]
    else
      [CallAct.completeError])

/-- Split a string into its complete (newline-terminated) lines and the
trailing fragment after the last newline; `splitAll '\n' s` is the first
component with the second appended as a final segment.  Proof-side view of
the split used by the stream handlers. -/
def splitLF (sep : Char) : List Char → List (List Char) × List Char
  | [] => ([], [])
  | c :: rest =>
    let p := splitLF sep rest
    if c = sep then ([] :: p.1, p.2)
    else
      match p.1 with
      | [] => ([], c :: p.2)
      | l :: ls => ((c :: l) :: ls, p.2)

/-- All hop numbers of a hop list are at least 1. -/
def hopsPos (l : List TracerouteHop) : Bool :=
  l.all (fun h => decide (1 ≤ h.hop))

/-- The hop numbers of a hop list are non-decreasing left to right. -/
def hopsNonDec : List TracerouteHop → Bool
  | [] => true
  | [_] => true
  | a :: b :: rest => decide (a.hop ≤ b.hop) && hopsNonDec (b :: rest)

/-- The sequence of hops a callback trace delivered to `onHop`, in delivery
order. -/
def hopEvents (evs : List REvent) : List TracerouteHop :=
  evs.filterMap (fun e =>
    match e with
    | .hopEv h => some h
    | .completeEv _ => none)

/-! ## Supporting lemmas -/

theorem splitAll_eq_splitLF (sep : Char) (l : List Char) :
    splitAll sep l = (splitLF sep l).1 ++ [(splitLF sep l).2] := by
  induction l with
  | nil => simp [splitAll, splitLF]
  | cons c rest ih =>
    simp only [splitAll, splitLF]
    by_cases hc : c = sep
    · simp [hc, ih]
    · simp only [hc, if_neg, ite_false]
      cases hp : (splitLF sep rest).1 with
      | nil =>
        rw [hp] at ih
        simp only [List.nil_append] at ih
        simp [ih]
      | cons l0 ls0 =>
        rw [hp] at ih
        simp [ih]

theorem splitLF_cons (sep c : Char) (rest : List Char) :
    splitLF sep (c :: rest) =
      if c = sep then ([] :: (splitLF sep rest).1, (splitLF sep rest).2)
      else
        match (splitLF sep rest).1 with
        | [] => ([], c :: (splitLF sep rest).2)
        | l :: ls => ((c :: l) :: ls, (splitLF sep rest).2) := rfl

theorem splitLF_append (sep : Char) (a b : List Char) :
    splitLF sep (a ++ b) =
      ((splitLF sep a).1 ++ (splitLF sep ((splitLF sep a).2 ++ b)).1,
        (splitLF sep ((splitLF sep a).2 ++ b)).2) := by
  induction a with
  | nil => simp [splitLF]
  | cons c a' ih =>
    rw [List.cons_append, splitLF_cons, splitLF_cons, ih]
    by_cases hc : c = sep
    · rw [if_pos hc, if_pos hc]
      simp
    · rw [if_neg hc, if_neg hc]
      cases hp : (splitLF sep a').1 with
      | nil =>
        simp only [hp, List.nil_append]
        rw [List.cons_append, splitLF_cons, if_neg hc]
      | cons l ls => simp [hp]

theorem sep_not_mem_splitLF_frag (sep : Char) (l : List Char) :
    sep ∉ (splitLF sep l).2 := by
  induction l with
  | nil => simp [splitLF]
  | cons c rest ih =>
    simp only [splitLF]
    by_cases hc : c = sep
    · simpa [hc] using ih
    · cases hp : (splitLF sep rest).1 with
      | nil =>
        simp only [hc, ite_false, hp]
        intro hmem
        rcases List.mem_cons.mp hmem with h | h
        · exact hc h.symm
        · exact ih h
      | cons l0 ls0 => simpa [hc, hp] using ih

theorem splitAll_of_not_mem (sep : Char) (l : List Char) (h : sep ∉ l) :
    splitAll sep l = [l] := by
  induction l with
  | nil => simp [splitAll]
  | cons c rest ih =>
    have hc : c ≠ sep := fun hcs => h (hcs ▸ List.mem_cons_self c rest)
    have hrest : sep ∉ rest := fun hm => h (List.mem_cons_of_mem c hm)
    simp [splitAll, (fun hcs => hc hcs), ih hrest]

theorem splitAll_sep_block (sep : Char) (a b : List Char)
    (h : ∀ c ∈ a, c ≠ sep) :
    splitAll sep (a ++ sep :: b) = a :: splitAll sep b := by
  induction a with
  | nil => simp [splitAll]
  | cons c a' ih =>
    have hc : c ≠ sep := h c (List.mem_cons_self c a')
    have ha' : ∀ x ∈ a', x ≠ sep := fun x hx => h x (List.mem_cons_of_mem c hx)
    have := ih ha'
    simp only [List.cons_append, splitAll, hc, ite_false, this]
    have hne : a' :: splitAll sep b ≠ [] := by simp
    cases hcons : a' :: splitAll sep b with
    | nil => exact absurd hcons hne
    | cons m ms => simp_all

theorem parseTracerouteLine_blank {l : List Char} (h : isBlank l = true) :
    parseTracerouteLine l = none := by
  unfold parseTracerouteLine
  rw [h]
  simp

theorem foldl_stepLine (lines : List (List Char)) (st : RunState) :
    lines.foldl stepLine st =
      ⟨st.buffer, st.hops ++ lines.filterMap parseTracerouteLine,
        st.events ++ (lines.filterMap parseTracerouteLine).map REvent.hopEv⟩ := by
  induction lines generalizing st with
  | nil => simp
  | cons line rest ih =>
    rw [List.foldl_cons, ih]
    unfold stepLine
    cases hp : parseTracerouteLine line with
    | none => simp [List.filterMap_cons, hp]
    | some h => simp [List.filterMap_cons, hp]

theorem runEvs_out (chunks : List (List Char)) :
    runEvs (chunks.map StreamEv.out) =
      ⟨(splitLF '\n' chunks.flatten).2,
        ((splitLF '\n' chunks.flatten).1).filterMap parseTracerouteLine,
        (((splitLF '\n' chunks.flatten).1).filterMap parseTracerouteLine).map
          REvent.hopEv⟩ := by
  induction chunks using List.reverseRecOn with
  | nil => rfl
  | append_singleton cs c ih =>
    have hrun : runEvs ((cs ++ [c]).map StreamEv.out)
        = onStdoutData (runEvs (cs.map StreamEv.out)) c := by
      unfold runEvs
      rw [List.map_append, List.foldl_append]
      rfl
    rw [hrun, ih]
    unfold onStdoutData
    simp only [splitAll_eq_splitLF, List.dropLast_concat, List.getLastD_concat]
    rw [foldl_stepLine]
    have hj : (cs ++ [c]).flatten = cs.flatten ++ c := by simp
    rw [hj, splitLF_append '\n' cs.flatten c]
    simp [List.filterMap_append]

theorem flushBuffer_out (chunks : List (List Char)) :
    flushBuffer (runEvs (chunks.map StreamEv.out)) =
      ⟨(splitLF '\n' chunks.flatten).2,
        (linesOf chunks.flatten).filterMap parseTracerouteLine,
        ((linesOf chunks.flatten).filterMap parseTracerouteLine).map
          REvent.hopEv⟩ := by
  rw [runEvs_out]
  unfold flushBuffer stepLine linesOf
  rw [splitAll_eq_splitLF, List.filterMap_append]
  by_cases hb : isBlank ((splitLF '\n' chunks.flatten).2) = true
  · simp [hb, parseTracerouteLine_blank hb]
  · have hb' : isBlank ((splitLF '\n' chunks.flatten).2) = false :=
      Bool.not_eq_true _ ▸ Bool.of_not_eq_true hb
    cases hp : parseTracerouteLine ((splitLF '\n' chunks.flatten).2) with
    | none => simp [hb', hp]
    | some h => simp [hb', hp]

theorem closeResult_out (target : List Char) (ts : Nat)
    (chunks : List (List Char)) (code : Option Int) :
    closeResult target ts (runEvs (chunks.map StreamEv.out)) code =
      ⟨target, (linesOf chunks.flatten).filterMap parseTracerouteLine, ts,
        code == some 0 ||
          !((linesOf chunks.flatten).filterMap parseTracerouteLine).isEmpty,
        none⟩ := by
  unfold closeResult
  rw [flushBuffer_out]

theorem ws_not_dig {c : Char} (h : isJsWS c = true) : isDig c = false := by
  unfold isJsWS at h
  simp only [Bool.or_eq_true, decide_eq_true_eq] at h
  rcases h with ((((h | h) | h) | h) | h) | h <;> subst h <;> decide

theorem isBlank_false_of_hopMatch {l : List Char} {x : Nat × List Char}
    (h : hopMatch l = some x) : isBlank l = false := by
  by_contra hb
  rw [Bool.not_eq_false] at hb
  have hdrop : l.dropWhile isJsWS = [] :=
    List.dropWhile_eq_nil_iff.mpr (fun y hy => List.all_eq_true.mp hb y hy)
  unfold hopMatch at h
  rw [hdrop] at h
  simp at h

theorem mkHop_hostname_ne {n : Nat} {ip hn : Option (List Char)}
    {rtt : Option ℚ} {s : List Char}
    (h : (mkHop n ip hn rtt).hostname = some s) :
    (mkHop n ip hn rtt).ip ≠ some s := by
  unfold mkHop at *
  dsimp at *
  split at h
  · exact absurd h (by simp)
  · next hne =>
    intro hip
    exact hne (h.trans hip.symm)

theorem hex_not_dash {c : Char} (h : isHexDig c = true) : c ≠ '-' := by
  intro hc
  subst hc
  exact absurd h (by decide)

theorem joinSep_cons_cons (sep : Char) (x y : List Char)
    (zs : List (List Char)) :
    joinSep sep (x :: y :: zs) = x ++ sep :: joinSep sep (y :: zs) := rfl

theorem splitAll_ne_nil (sep : Char) (l : List Char) : splitAll sep l ≠ [] := by
  rw [splitAll_eq_splitLF]
  simp

theorem dashedDecode_none {t : List Char} (hc : dashedCapture t = none) :
    dashedDecode t = none := by
  unfold dashedDecode
  rw [hc]

theorem dashedDecode_some {t cap : List Char} (hc : dashedCapture t = some cap) :
    dashedDecode t =
      if (decide (4 ≤ (splitAll '-' cap).length) &&
          (splitAll '-' cap).all hexGroup14) = true then
        some (joinSep ':' (splitAll '-' cap))
      else none := by
  unfold dashedDecode
  rw [hc]

theorem dashedDecode_ne {t ip : List Char} (h : dashedDecode t = some ip) :
    t ≠ ip := by
  cases hc : dashedCapture t with
  | none => rw [dashedDecode_none hc] at h; exact absurd h (by simp)
  | some cap =>
    rw [dashedDecode_some hc] at h
    by_cases hcond : (decide (4 ≤ (splitAll '-' cap).length) &&
        (splitAll '-' cap).all hexGroup14) = true
    case neg => rw [if_neg hcond] at h; exact absurd h (by simp)
    case pos =>
      rw [if_pos hcond] at h
      replace h := Option.some.inj h
      unfold dashedCapture at hc
      by_cases he : (t.takeWhile isHexDig).isEmpty
      · rw [if_pos he] at hc; exact absurd hc (by simp)
      · rw [if_neg he] at hc
        cases hd : t.dropWhile isHexDig with
        | nil => rw [hd] at hc; exact absurd hc (by simp)
        | cons c0 r2 =>
          rw [hd] at hc
          dsimp only at hc
          by_cases hc0 : c0 = '-'
          · subst hc0
            rw [if_pos rfl] at hc
            by_cases hrun : (r2.takeWhile isHexDash).isEmpty
            · rw [if_pos hrun] at hc; exact absurd hc (by simp)
            · rw [if_neg hrun] at hc
              replace hc := Option.some.inj hc
              have hmem : ∀ c ∈ t.takeWhile isHexDig, c ≠ '-' :=
                fun c hcm => hex_not_dash (List.mem_takeWhile_imp hcm)
              have hsplit := splitAll_sep_block '-' (t.takeWhile isHexDig)
                (r2.takeWhile isHexDash) hmem
              rw [← hc, hsplit] at h
              obtain ⟨s0, ss, hS⟩ := List.exists_cons_of_ne_nil
                (splitAll_ne_nil '-' (r2.takeWhile isHexDash))
              rw [hS, joinSep_cons_cons] at h
              have ht : t = t.takeWhile isHexDig ++ '-' :: r2 := by
                conv_lhs => rw [← List.takeWhile_append_dropWhile
                  (p := isHexDig) (l := t)]
                rw [hd]
              intro heq
              rw [ht, ← h] at heq
              have hcan := List.append_cancel_left heq
              injection hcan with hch htl
              exact absurd hch (by decide)
          · rw [if_neg hc0] at hc; exact absurd hc (by simp)

theorem parse_line_star {line : List Char} {n : Nat} {r : List Char}
    (h4 : hasSub hdrV4 line = false) (h6 : hasSub hdrV6 line = false)
    (hm : hopMatch line = some (n, r))
    (hst : hasSub starMarker line = true) :
    parseTracerouteLine line = some ⟨n, none, none, none⟩ := by
  have hb := isBlank_false_of_hopMatch hm
  simp [parseTracerouteLine, hb, h4, h6, hm, hst]

theorem parse_line_tokens {line : List Char} {n : Nat} {r t u : List Char}
    {us : List (List Char)}
    (h4 : hasSub hdrV4 line = false) (h6 : hasSub hdrV6 line = false)
    (hm : hopMatch line = some (n, r))
    (hst : hasSub starMarker line = false)
    (hw : wordsOf r = t :: u :: us) :
    parseTracerouteLine line =
      (match parenScan r with
       | some (hn, ip4) => some (mkHop n (some ip4) (some hn) (rttOf r))
       | none =>
         if ipv4Test t then some (mkHop n (some t) none (rttOf r))
         else if ipv6Test t then some (mkHop n (some t) none (rttOf r))
         else some (mkHop n (dashedDecode t) (some t) (rttOf r))) := by
  have hb := isBlank_false_of_hopMatch hm
  simp [parseTracerouteLine, hb, h4, h6, hm, hst, hw]

theorem parse_shape {line : List Char} {h : TracerouteHop}
    (hp : parseTracerouteLine line = some h) :
    h.hostname = none ∨ ∃ n ip hn rtt, h = mkHop n ip hn rtt := by
  unfold parseTracerouteLine at hp
  by_cases hb : (isBlank line || hasSub hdrV4 line || hasSub hdrV6 line) = true
  · rw [if_pos hb] at hp; simp at hp
  · rw [if_neg hb] at hp
    cases hm : hopMatch line with
    | none => rw [hm] at hp; simp at hp
    | some pr =>
      obtain ⟨n, r⟩ := pr
      rw [hm] at hp
      dsimp only at hp
      by_cases hst : hasSub starMarker line = true
      · rw [if_pos hst] at hp
        left
        rw [← Option.some.inj hp]
      · rw [if_neg hst] at hp
        cases hw : wordsOf r with
        | nil => rw [hw] at hp; simp at hp
        | cons t rest =>
          cases rest with
          | nil => rw [hw] at hp; simp at hp
          | cons u us =>
            rw [hw] at hp
            dsimp only at hp
            right
            cases hps : parenScan r with
            | some pr2 =>
              obtain ⟨hn, ip4⟩ := pr2
              rw [hps] at hp
              dsimp only at hp
              exact ⟨n, some ip4, some hn, rttOf r, (Option.some.inj hp).symm⟩
            | none =>
              rw [hps] at hp
              dsimp only at hp
              by_cases h4t : ipv4Test t = true
              · rw [if_pos h4t] at hp
                exact ⟨n, some t, none, rttOf r, (Option.some.inj hp).symm⟩
              · rw [if_neg h4t] at hp
                by_cases h6t : ipv6Test t = true
                · rw [if_pos h6t] at hp
                  exact ⟨n, some t, none, rttOf r, (Option.some.inj hp).symm⟩
                · rw [if_neg h6t] at hp
                  exact ⟨n, dashedDecode t, some t, rttOf r,
                    (Option.some.inj hp).symm⟩

theorem foldl_pushHop_filterMap (f : List Char → Option TracerouteHop)
    (l : List (List Char)) (acc : List TracerouteHop) :
    l.foldl (fun hs x => pushHop hs (f x)) acc = acc ++ l.filterMap f := by
  induction l generalizing acc with
  | nil => simp
  | cons x xs ih =>
    rw [List.foldl_cons, ih]
    cases hf : f x <;> simp [pushHop, List.filterMap_cons, hf]

theorem parseOutputLoopBody_eq :
    parseOutputLoopBody = parseTracerouteLine := rfl

theorem hasCompleteEv_append (a b : List REvent) :
    hasCompleteEv (a ++ b) = (hasCompleteEv a || hasCompleteEv b) := by
  induction a with
  | nil => rfl
  | cons e rest ih => cases e <;> simp [hasCompleteEv, ih]

theorem hasCompleteEv_onClose (target : List Char) (ts : Nat) (st : RunState)
    (code : Option Int) :
    hasCompleteEv (onClose target ts st code).events = true := by
  unfold onClose
  dsimp only
  rw [hasCompleteEv_append]
  simp [hasCompleteEv]

theorem runClose_out_events (target : List Char) (ts : Nat)
    (chunks : List (List Char)) (code : Option Int) :
    (runClose target ts (chunks.map StreamEv.out) code).events
      = ((linesOf chunks.flatten).filterMap parseTracerouteLine).map
          REvent.hopEv
        ++ [REvent.completeEv
            (closeResult target ts (runEvs (chunks.map StreamEv.out)) code)] := by
  unfold runClose onClose
  rw [flushBuffer_out]

theorem hopEvents_map_hopEv (hs : List TracerouteHop) (r : TraceResult) :
    hopEvents (hs.map REvent.hopEv ++ [REvent.completeEv r]) = hs := by
  induction hs with
  | nil => rfl
  | cons x xs ih => exact congrArg (List.cons x) ih

theorem foldl_out1 (target : List Char) (ts : Nat) (cs : List (List Char))
    (s : SysState) (hs : s.started1 = true) :
    (cs.map SysEv.out1).foldl (stepSys target ts) s
      = { s with run1 := cs.foldl onStdoutData s.run1 } := by
  induction cs generalizing s with
  | nil => rfl
  | cons c cs ih =>
    simp only [List.map_cons, List.foldl_cons]
    have hstep : stepSys target ts s (SysEv.out1 c)
        = { s with run1 := onStdoutData s.run1 c } := by
      unfold stepSys
      dsimp only
      rw [if_pos hs]
    rw [hstep, ih { s with run1 := onStdoutData s.run1 c } hs]

theorem step_call2_close1 (target : List Char) (ts : Nat) (code : Option Int)
    (s : SysState) (hs1 : s.started1 = true) (ha : s.active = some 1) :
    (List.foldl (stepSys target ts) s [SysEv.call2, SysEv.close1 code]).kills
        = s.kills ++ [1]
    ∧ hasCompleteEv
        (List.foldl (stepSys target ts) s
          [SysEv.call2, SysEv.close1 code]).run1.events = true := by
  simp only [List.foldl_cons, List.foldl_nil]
  have hstop : stopActive s = { s with kills := s.kills ++ [1], active := none } := by
    unfold stopActive
    rw [ha]
  have h2 : stepSys target ts s SysEv.call2
      = { s with
          kills := s.kills ++ [1],
          active := some 2,
          started2 := true,
          run2 := initRun } := by
    unfold stepSys
    dsimp only
    rw [hstop]
  rw [h2]
  have h3 : stepSys target ts
      { s with
        kills := s.kills ++ [1],
        active := some 2,
        started2 := true,
        run2 := initRun } (SysEv.close1 code)
      = { s with
          kills := s.kills ++ [1],
          active := some 2,
          started2 := true,
          run2 := initRun,
          run1 := onClose target ts s.run1 code } := by
    unfold stepSys
    dsimp only
    rw [if_pos hs1]
  rw [h3]
  exact ⟨rfl, hasCompleteEv_onClose target ts s.run1 code⟩

/-! ## The claims -/

/-- C1: for every run of `runTracerouteStreaming` whose subprocess exits
(close event with exit code `code`), the `TraceResult` delivered to
`onComplete` — the final callback of the run — has `complete = true`
exactly when the exit code is the success code 0 or the parsed hop
sequence is non-empty; with a non-zero (or absent) code and no parsed
hops, `complete = false` (partial-success policy). -/
theorem c1_complete_partial_success_policy (target : List Char) (ts : Nat)
    (evs : List StreamEv) (code : Option Int) :
    (runClose target ts evs code).events.getLast?
      = some (REvent.completeEv (closeResult target ts (runEvs evs) code))
    ∧ ((closeResult target ts (runEvs evs) code).complete = true
      ↔ code = some 0 ∨ (closeResult target ts (runEvs evs) code).hops ≠ []) := by
  constructor
  · unfold runClose onClose
    dsimp only
    exact List.getLast?_concat _
  · unfold closeResult
    dsimp only
    by_cases hc : code = some 0
    · simp [hc]
    · rw [beq_eq_false_iff_ne.mpr hc, Bool.false_or]
      simp [hc]

/-- C2 counterexample: in the scenario `call₁; stdout₁; call₂; close₁`,
the second `runTracerouteStreaming` call kills the first run's subprocess
through the active handle (`kills = [1]`), yet when the killed process's
close event is delivered the first run's `onComplete` still fires — the
close handler holds no active-attempt comparison — refuting the claim that
the superseded run's `onComplete` never fires. -/
theorem c2_superseded_onComplete_cex :
    (execSys "example.com".toList 0
        [SysEv.call1, SysEv.out1 "1  1.1.1.1  1.0 ms\n".toList,
          SysEv.call2, SysEv.close1 none]).kills = [1]
    ∧ hasCompleteEv (execSys "example.com".toList 0
        [SysEv.call1, SysEv.out1 "1  1.1.1.1  1.0 ms\n".toList,
          SysEv.call2, SysEv.close1 none]).run1.events = true := by
  decide

/-- C2 amended: when `runTracerouteStreaming` is called a second time
before the first run completes, the second call does kill the first
subprocess via the active handle, but the first run's handlers stay
attached: whenever the killed process's close event is delivered, the
superseded run's `onComplete` fires (there is no active-attempt check at
delivery time). -/
theorem c2_superseded_onComplete_fires (target : List Char) (ts : Nat)
    (cs : List (List Char)) (code : Option Int) :
    (execSys target ts ([SysEv.call1] ++ cs.map SysEv.out1
        ++ [SysEv.call2, SysEv.close1 code])).kills = [1]
    ∧ hasCompleteEv (execSys target ts ([SysEv.call1] ++ cs.map SysEv.out1
        ++ [SysEv.call2, SysEv.close1 code])).run1.events = true := by
  unfold execSys
  rw [List.foldl_append, List.foldl_append]
  have h1 : List.foldl (stepSys target ts) initSys [SysEv.call1]
      = { active := some 1, kills := [], started1 := true, run1 := initRun,
          started2 := false, run2 := initRun } := rfl
  rw [h1, foldl_out1 target ts cs _ rfl]
  refine ⟨?_, (step_call2_close1 target ts code _ rfl rfl).2⟩
  rw [(step_call2_close1 target ts code _ rfl rfl).1]
  rfl

/-- C3 counterexample: a hop line split mid-line across two stderr chunks
is not reassembled — the stderr handler splits and parses each chunk on
its own, without the line buffer — so the emitted hops differ from the
hops of the full concatenated text (here the latency `3.5` is lost),
refuting the claim that both streams go through the same line-buffering
path. -/
theorem c3_stderr_not_buffered_cex :
    (runClose "t".toList 0
        [StreamEv.err "2  10.0.0.1  3.".toList,
          StreamEv.err "5 ms\n".toList] (some 0)).hops
      ≠ (linesOf ("2  10.0.0.1  3.".toList ++ "5 ms\n".toList)).filterMap
          parseTracerouteLine := by
  decide

/-- C3 amended: on the stdout stream the buffering invariant holds: for
every chunk sequence, the hops of the final result and the hops delivered
to `onHop` both equal the line-by-line parse of the full concatenated
text, with the trailing unterminated fragment held back until the close
flush — so a hop line split mid-line across chunks yields exactly one
correct hop.  (The stderr handler parses each chunk unbuffered.) -/
theorem c3_stdout_line_buffered (target : List Char) (ts : Nat)
    (chunks : List (List Char)) (code : Option Int) :
    (closeResult target ts (runEvs (chunks.map StreamEv.out)) code).hops
      = (linesOf chunks.flatten).filterMap parseTracerouteLine
    ∧ hopEvents (runClose target ts (chunks.map StreamEv.out) code).events
      = (linesOf chunks.flatten).filterMap parseTracerouteLine := by
  constructor
  · rw [closeResult_out]
  · rw [runClose_out_events, hopEvents_map_hopEv]

/-- C4 counterexample: on a supported platform the effect trace of
`runTracerouteStreaming` is family detection, then command selection, then
`cancelActive`, then spawn — the cancel is not first — and on an
unsupported platform `cancelActive` is never reached, refuting the claimed
ordering and the claimed every-path coverage. -/
theorem c4_cancel_not_first_cex :
    callActions "darwin".toList
      = [CallAct.detectFamily, CallAct.selectCommand, CallAct.cancelActive,
          CallAct.spawnProc]
    ∧ CallAct.cancelActive ∉ callActions "freebsd".toList := by
  decide

/-- C4 amended: on every platform where `runTracerouteStreaming` spawns a
subprocess, `stopActiveTraceroute` is called after address-family
detection and command selection but before the spawn; on an unsupported
platform the call only detects the family and delivers an error
completion, spawning nothing (so the at-most-one-subprocess invariant is
still preserved there, though no cancellation happens). -/
theorem c4_cancel_before_spawn (platform : List Char) :
    (CallAct.spawnProc ∈ callActions platform →
      callActions platform
        = [CallAct.detectFamily, CallAct.selectCommand, CallAct.cancelActive,
            CallAct.spawnProc])
    ∧ (CallAct.spawnProc ∉ callActions platform →
      callActions platform = [CallAct.detectFamily, CallAct.completeError]) := by
  unfold callActions
  split
  · exact ⟨fun _ => rfl, fun hn => absurd (by decide) hn⟩
  · split
    · exact ⟨fun _ => rfl, fun hn => absurd (by decide) hn⟩
    · exact ⟨fun hsp => absurd hsp (by decide), fun _ => rfl⟩

/-- C4 amended, witness at `darwin`. -/
theorem c4_cancel_before_spawn_witness :
    CallAct.spawnProc ∈ callActions "darwin".toList
    ∧ callActions "darwin".toList
      = [CallAct.detectFamily, CallAct.selectCommand, CallAct.cancelActive,
          CallAct.spawnProc] :=
  ⟨by decide, (c4_cancel_before_spawn "darwin".toList).1 (by decide)⟩

/-- C5 counterexample: a line whose remainder after the hop number is
exactly one token — a bare dotted-decimal IPv4 address with no latency —
is rejected by the parser (the `parts.length < 2` guard), so no hop is
returned, refuting the claim. -/
theorem c5_single_token_bare_ipv4_cex :
    parseTracerouteLine " 3  10.1.2.3".toList = none := by
  decide

/-- C5 amended: a line whose remainder has a bare dotted-decimal IPv4
address as its first token — followed by at least one further token, with
no parenthesised address and no latency field anywhere in the remainder —
parses to a hop with that number, that address, null hostname and null
latency; a remainder consisting of the address token alone yields no hop
at all. -/
theorem c5_bare_ipv4_no_latency (line : List Char) (n : Nat)
    (r t u : List Char) (us : List (List Char))
    (h4 : hasSub hdrV4 line = false) (h6 : hasSub hdrV6 line = false)
    (hm : hopMatch line = some (n, r))
    (hst : hasSub starMarker line = false)
    (hw : wordsOf r = t :: u :: us)
    (hip : ipv4Test t = true)
    (hparen : parenScan r = none)
    (hrtt : rttScan r = none) :
    parseTracerouteLine line = some ⟨n, some t, none, none⟩ := by
  rw [parse_line_tokens h4 h6 hm hst hw, hparen]
  dsimp only
  rw [if_pos hip]
  simp [mkHop, rttOf, hrtt]

/-- C5 amended, witness. -/
theorem c5_bare_ipv4_no_latency_witness :
    ipv4Test "10.1.2.3".toList = true
    ∧ rttScan "10.1.2.3  !X".toList = none
    ∧ parseTracerouteLine " 3  10.1.2.3  !X".toList
        = some ⟨3, some "10.1.2.3".toList, none, none⟩ :=
  ⟨by decide, by decide,
    c5_bare_ipv4_no_latency " 3  10.1.2.3  !X".toList 3
      "10.1.2.3  !X".toList "10.1.2.3".toList "!X".toList []
      (by decide) (by decide) (by decide) (by decide) (by decide)
      (by decide) (by decide) (by decide)⟩

/-- C6 counterexample: the hostname token `2a02-1811-d34-2d00zzz.foo`,
whose leading hyphen-delimited segment `2a02-1811-d34-2d00zzz` contains
the non-hex group `2d00zzz`, nonetheless gets a decoded address: the
decode looks only at the maximal leading run of hex-and-hyphen characters
(`2a02-1811-d34-2d00`, stopping at the first `z`), refuting the claim that
any non-hex group in the leading segment leaves the address null. -/
theorem c6_nonhex_tail_decoded_cex :
    parseTracerouteLine " 5  2a02-1811-d34-2d00zzz.foo  1.5 ms".toList
      = some ⟨5, some "2a02:1811:d34:2d00".toList,
          some "2a02-1811-d34-2d00zzz.foo".toList, some (mkRat 3 2)⟩
    ∧ splitAll '-' "2a02-1811-d34-2d00zzz".toList
      = ["2a02".toList, "1811".toList, "d34".toList, "2d00zzz".toList]
    ∧ hexGroup14 "2d00zzz".toList = false := by
  refine ⟨by decide, by decide, by decide⟩

/-- C6 amended: on a hop line whose first token the parser classifies as a
hostname (no parenthesised IPv4 in the remainder, token neither bare IPv4
nor bare IPv6, at least two tokens), the hop always retains the token as
hostname and carries as address the dashed-IPv6 decode of the token's
maximal leading run of hex-and-hyphen characters: when that run exists and
splits into at least four hyphen-separated groups of one-to-four hex
digits, the address is the groups joined with colons; otherwise — a run
with fewer groups or an over-long/non-hex group, or no leading hex-hyphen
run at all (`unifi`, `core-router-1-2-3-4`) — the address stays null. -/
theorem c6_dashed_decode_leading_run (line : List Char) (n : Nat)
    (r t u : List Char) (us : List (List Char))
    (h4 : hasSub hdrV4 line = false) (h6 : hasSub hdrV6 line = false)
    (hm : hopMatch line = some (n, r))
    (hst : hasSub starMarker line = false)
    (hw : wordsOf r = t :: u :: us)
    (hparen : parenScan r = none)
    (hip4 : ipv4Test t = false) (hip6 : ipv6Test t = false) :
    parseTracerouteLine line = some ⟨n, dashedDecode t, some t, rttOf r⟩
    ∧ (dashedCapture t = none → dashedDecode t = none)
    ∧ ∀ cap, dashedCapture t = some cap →
        ((4 ≤ (splitAll '-' cap).length
            ∧ (splitAll '-' cap).all hexGroup14 = true →
          dashedDecode t = some (joinSep ':' (splitAll '-' cap)))
        ∧ (¬(4 ≤ (splitAll '-' cap).length
              ∧ (splitAll '-' cap).all hexGroup14 = true) →
          dashedDecode t = none)) := by
  have hbase : parseTracerouteLine line
      = some (mkHop n (dashedDecode t) (some t) (rttOf r)) := by
    rw [parse_line_tokens h4 h6 hm hst hw, hparen]
    dsimp only
    simp [hip4, hip6]
  refine ⟨?_, fun hc => dashedDecode_none hc,
    fun cap hc => ⟨fun hyes => ?_, fun hno => ?_⟩⟩
  · rw [hbase]
    unfold mkHop
    have hne : ¬(some t = dashedDecode t) := by
      cases hdd : dashedDecode t with
      | none => simp
      | some ip => exact fun hcon => (dashedDecode_ne hdd) (Option.some.inj hcon)
    rw [if_neg hne]
  · rw [dashedDecode_some hc,
      if_pos (by simp only [Bool.and_eq_true, decide_eq_true_eq]; exact ⟨hyes.1, hyes.2⟩)]
  · rw [dashedDecode_some hc,
      if_neg (by simp only [Bool.and_eq_true, decide_eq_true_eq]; exact fun hcon => hno hcon)]

/-- C6 amended, witnesses: a dashed-IPv6 reverse-DNS hop line on which the
decode succeeds, and a plain hostname (`unifi`) with no leading hex-hyphen
run, on which the address stays null. -/
theorem c6_dashed_decode_leading_run_witness :
    parseTracerouteLine
        " 2  2a02-1811-d34-2d00-66fd-96ff-fe79-a484.ip6.access.telenet.be  7.889 ms".toList
      = some ⟨2,
          dashedDecode
            "2a02-1811-d34-2d00-66fd-96ff-fe79-a484.ip6.access.telenet.be".toList,
          some "2a02-1811-d34-2d00-66fd-96ff-fe79-a484.ip6.access.telenet.be".toList,
          rttOf "2a02-1811-d34-2d00-66fd-96ff-fe79-a484.ip6.access.telenet.be  7.889 ms".toList⟩
    ∧ dashedDecode
        "2a02-1811-d34-2d00-66fd-96ff-fe79-a484.ip6.access.telenet.be".toList
      = some (joinSep ':'
          (splitAll '-' "2a02-1811-d34-2d00-66fd-96ff-fe79-a484".toList))
    ∧ dashedDecode "unifi".toList = none :=
  ⟨(c6_dashed_decode_leading_run
      " 2  2a02-1811-d34-2d00-66fd-96ff-fe79-a484.ip6.access.telenet.be  7.889 ms".toList
      2
      "2a02-1811-d34-2d00-66fd-96ff-fe79-a484.ip6.access.telenet.be  7.889 ms".toList
      "2a02-1811-d34-2d00-66fd-96ff-fe79-a484.ip6.access.telenet.be".toList
      "7.889".toList ["ms".toList]
      (by decide) (by decide) (by decide) (by decide) (by decide)
      (by decide) (by decide) (by decide)).1,
    ((c6_dashed_decode_leading_run
      " 2  2a02-1811-d34-2d00-66fd-96ff-fe79-a484.ip6.access.telenet.be  7.889 ms".toList
      2
      "2a02-1811-d34-2d00-66fd-96ff-fe79-a484.ip6.access.telenet.be  7.889 ms".toList
      "2a02-1811-d34-2d00-66fd-96ff-fe79-a484.ip6.access.telenet.be".toList
      "7.889".toList ["ms".toList]
      (by decide) (by decide) (by decide) (by decide) (by decide)
      (by decide) (by decide) (by decide)).2.2
      "2a02-1811-d34-2d00-66fd-96ff-fe79-a484".toList (by decide)).1 (by decide),
    (c6_dashed_decode_leading_run
      " 4  unifi  1.5 ms".toList 4 "unifi  1.5 ms".toList
      "unifi".toList "1.5".toList ["ms".toList]
      (by decide) (by decide) (by decide) (by decide) (by decide)
      (by decide) (by decide) (by decide)).2.1 (by decide)⟩

/-- C7 counterexample: the unresolved-hop line `"2  * * *"` yields a hop
whose hostname and address are both null — the two fields are equal —
refuting the unconditional claim that hostname is never equal to
address. -/
theorem c7_hostname_eq_ip_cex :
    parseTracerouteLine "2  * * *".toList = some ⟨2, none, none, none⟩
    ∧ (TracerouteHop.mk 2 none none none).hostname
      = (TracerouteHop.mk 2 none none none).ip :=
  ⟨by decide, rfl⟩

/-- C7 amended: for every hop returned by the parser, a non-null hostname
is never equal to the address: whenever the hostname field holds a string,
the address field does not hold that same string (the two fields coincide
only when both are null, as on unresolved hops). -/
theorem c7_hostname_ne_ip_of_some (line : List Char) (h : TracerouteHop)
    (s : List Char) (hp : parseTracerouteLine line = some h)
    (hs : h.hostname = some s) : h.ip ≠ some s := by
  rcases parse_shape hp with hn | ⟨n, ip, hn', rtt, rfl⟩
  · rw [hn] at hs
    exact absurd hs (by simp)
  · exact mkHop_hostname_ne hs

/-- C7 amended, witness on a `hostname (ipv4)` line. -/
theorem c7_hostname_ne_ip_of_some_witness :
    parseTracerouteLine "3  edge.example.net (203.0.113.9)  22.5 ms".toList
      = some ⟨3, some "203.0.113.9".toList, some "edge.example.net".toList,
          some (mkRat 45 2)⟩
    ∧ (TracerouteHop.mk 3 (some "203.0.113.9".toList)
        (some "edge.example.net".toList) (some (mkRat 45 2))).ip
      ≠ some "edge.example.net".toList :=
  ⟨by decide,
    c7_hostname_ne_ip_of_some
      "3  edge.example.net (203.0.113.9)  22.5 ms".toList
      (TracerouteHop.mk 3 (some "203.0.113.9".toList)
        (some "edge.example.net".toList) (some (mkRat 45 2)))
      "edge.example.net".toList (by decide) rfl⟩

/-- C8 counterexample: the line `"1 traceroute to * * *"` begins with a
hop number and contains the unresolved marker, yet the parser returns no
hop because the line also contains the header text `traceroute to`, which
is checked first — refuting the claim as stated over all such lines. -/
theorem c8_star_with_header_cex :
    parseTracerouteLine "1 traceroute to * * *".toList = none := by
  decide

/-- C8 amended: every line that begins with optional whitespace, a decimal
hop number and whitespace, contains the literal marker `* * *`, and does
not contain the banner substrings `traceroute to` / `traceroute6 to`,
parses to a hop with that number and null address, hostname and
latency. -/
theorem c8_star_marker_hop (line : List Char) (n : Nat) (r : List Char)
    (h4 : hasSub hdrV4 line = false) (h6 : hasSub hdrV6 line = false)
    (hm : hopMatch line = some (n, r))
    (hst : hasSub starMarker line = true) :
    parseTracerouteLine line = some ⟨n, none, none, none⟩ :=
  parse_line_star h4 h6 hm hst

/-- C8 amended, witness. -/
theorem c8_star_marker_hop_witness :
    hasSub starMarker " 2  * * *".toList = true
    ∧ parseTracerouteLine " 2  * * *".toList = some ⟨2, none, none, none⟩ :=
  ⟨by decide,
    c8_star_marker_hop " 2  * * *".toList 2 "* * *".toList
      (by decide) (by decide) (by decide) (by decide)⟩

/-- C9 counterexample: the subprocess output `"1 ...\n0 ...\n"` makes the
run deliver hop numbers `[1, 0]` to `onHop` — neither positive throughout
nor non-decreasing — refuting the claim for arbitrary subprocess output:
the code does not enforce the invariant. -/
theorem c9_nonmonotonic_cex :
    (hopEvents (runClose "t".toList 0
        [StreamEv.out "1  2.2.2.2  1.0 ms\n0  1.1.1.1  1.0 ms\n".toList]
        (some 0)).events).map TracerouteHop.hop = [1, 0]
    ∧ hopsNonDec (hopEvents (runClose "t".toList 0
        [StreamEv.out "1  2.2.2.2  1.0 ms\n0  1.1.1.1  1.0 ms\n".toList]
        (some 0)).events) = false
    ∧ hopsPos (hopEvents (runClose "t".toList 0
        [StreamEv.out "1  2.2.2.2  1.0 ms\n0  1.1.1.1  1.0 ms\n".toList]
        (some 0)).events) = false := by
  decide

/-- C9 amended: the hops delivered to `onHop` are exactly the hops parsed
from the full output text in line order; hence whenever the hop lines of
the subprocess's stdout output carry positive, non-decreasing hop numbers
(as real traceroute output does), the hop numbers delivered to `onHop`
are positive and monotonically non-decreasing in delivery order. -/
theorem c9_monotonic_of_wellformed (target : List Char) (ts : Nat)
    (chunks : List (List Char)) (code : Option Int)
    (hpos : hopsPos ((linesOf chunks.flatten).filterMap parseTracerouteLine)
      = true)
    (hmono : hopsNonDec ((linesOf chunks.flatten).filterMap parseTracerouteLine)
      = true) :
    hopsPos (hopEvents
        (runClose target ts (chunks.map StreamEv.out) code).events) = true
    ∧ hopsNonDec (hopEvents
        (runClose target ts (chunks.map StreamEv.out) code).events) = true := by
  rw [runClose_out_events, hopEvents_map_hopEv]
  exact ⟨hpos, hmono⟩

/-- C9 amended, witness with a hop line split across two chunks. -/
theorem c9_monotonic_of_wellformed_witness :
    hopsPos ((linesOf (["1  1.1.1.1  1.0 ms\n2  2.2.".toList,
        "2.2  2.0 ms\n".toList] : List (List Char)).flatten).filterMap
          parseTracerouteLine) = true
    ∧ hopsNonDec ((linesOf (["1  1.1.1.1  1.0 ms\n2  2.2.".toList,
        "2.2  2.0 ms\n".toList] : List (List Char)).flatten).filterMap
          parseTracerouteLine) = true
    ∧ (hopsPos (hopEvents (runClose "t".toList 0
          ((["1  1.1.1.1  1.0 ms\n2  2.2.".toList,
            "2.2  2.0 ms\n".toList] : List (List Char)).map StreamEv.out)
          (some 0)).events) = true
      ∧ hopsNonDec (hopEvents (runClose "t".toList 0
          ((["1  1.1.1.1  1.0 ms\n2  2.2.".toList,
            "2.2  2.0 ms\n".toList] : List (List Char)).map StreamEv.out)
          (some 0)).events) = true) :=
  ⟨by decide, by decide,
    c9_monotonic_of_wellformed "t".toList 0
      ["1  1.1.1.1  1.0 ms\n2  2.2.".toList, "2.2  2.0 ms\n".toList]
      (some 0) (by decide) (by decide)⟩

/-- C10: the batch parser equals the streaming per-line parser lifted to
whole outputs: `parseTracerouteOutput s` is exactly the newline-split of
`s` fed line by line through `parseTracerouteLine`, keeping the non-null
results in order. -/
theorem c10_batch_eq_streaming (output : List Char) :
    parseTracerouteOutput output
      = (splitAll '\n' output).filterMap parseTracerouteLine := by
  unfold parseTracerouteOutput
  rw [foldl_pushHop_filterMap, parseOutputLoopBody_eq, List.nil_append]

end Oli
